import Mathlib

/- Verification of the TalkDub job-orchestration core.

   Shallow embedding of the Python source under src/ into Lean:
   - strings are modelled as Lean String / List Char;
   - Python ints are Nat/Int (no overflow is possible at the modelled sites);
   - the two float comparisons in the source, `critical_errors < len(originals) * 0.1`
     (translation_validator.py) and `failed_chunks / total_chunks > 0.5`
     (trans_groq.py), are embedded as the exact integer comparisons
     `10 * critical < n` and `2 * failed > total`.  This is justified: for
     every n below 2^51 the IEEE-754 double `n * fl(0.1)` compares with an
     integer k exactly as the rational n/10 does (the relative error of
     fl(0.1) is about 5.6e-17, far below the distance of n/10 to the nearest
     other integer crossing, and when n is a multiple of 10 the rounded
     product is exactly n/10), and `f / t` compares with the exact constant
     0.5 as the rational f/t does for t below 2^52;
   - I/O-dependent facts (existence of the job file, of scratch files, of
     environment variables, outcome of one LLM call, wall-clock time) enter
     the model as explicit parameters, so every branch of the source logic
     stays visible. -/

namespace Talkdub

/-- ASCII single quote, built from its code point so it can be embedded in
the Japanese user-facing messages exactly as the source writes them. -/
def squote : String := (Char.ofNat 39).toString

/-- Substring test on character lists: models Python `re.search` applied to a
pattern that contains only literal characters (all patterns matched below are
of this form once the regex escapes are removed). -/
def strHas (needle : List Char) : List Char → Bool
  | [] => needle.isEmpty
  | c :: rest => needle.isPrefixOf (c :: rest) || strHas needle rest

/-- Split a character list at the dots, modelling Python `field_path.split('.')`
in phase_dependencies.py. -/
def splitDot (cur : List Char) (acc : List Char) : List (List Char) :=
  match cur with
  | [] => [acc.reverse]
  | c :: rest => if c = '.' then acc.reverse :: splitDot rest [] else splitDot rest (c :: acc)

/-- `s.split('.')` as a list of strings. -/
def splitDotStr (s : String) : List String := (splitDot s.data []).map (fun cs => ⟨cs⟩)

/- ------------------------------------------------------------------
   Data model: the fields of a `segments[]` entry of the job record that
   the translation pipeline reads or writes (src/app/api/jobs.py builds the
   record, src/pipeline/phases/trans_groq.py mutates these fields).
   `suspected_hallucination` stands for `seg["flags"].get("suspected_hallucination", False)`;
   the three `translation_*` fields are `seg["translation"]["provider"/"status"/"retries"]`.
   ------------------------------------------------------------------ -/

structure Segment where
  src_text : String
  tgt_text : Option String
  suspected_hallucination : Bool
  translation_status : String
  translation_provider : Option String
  translation_retries : Nat
  deriving DecidableEq, Inhabited

namespace SegmentChunker

/-- Sum of the source-text lengths, `SegmentChunker.estimate_total_chars`
in src/pipeline/utils/chunker.py. -/
def estimate_total_chars (segments : List Segment) : Nat :=
  (segments.map (fun s => s.src_text.length)).sum

/-- The loop body of `SegmentChunker.chunk_segments` (src/pipeline/utils/chunker.py,
lines 39-59): `cur` is `current_chunk`, `curChars` is `current_chars`;
`would_exceed_chars = current_chars + text_len > char_limit`,
`would_exceed_segs = len(current_chunk) >= seg_limit`; when `current_chunk`
is non-empty and either bound would be exceeded the chunk is flushed, then
the segment is appended to the (possibly fresh) current chunk. -/
def chunkLoop (char_limit seg_limit : Nat) :
    List Segment → List Segment → Nat → List (List Segment)
  | [], cur, _ => if cur = [] then [] else [cur]
  | s :: rest, cur, curChars =>
    if cur ≠ [] ∧ (char_limit < curChars + s.src_text.length ∨ seg_limit ≤ cur.length) then
      cur :: chunkLoop char_limit seg_limit rest [s] s.src_text.length
    else
      chunkLoop char_limit seg_limit rest (cur ++ [s]) (curChars + s.src_text.length)

/-- `SegmentChunker.chunk_segments(segments, char_limit, seg_limit)`.
The settings defaults are CHUNK_CHAR_LIMIT_SRC = 2000 and CHUNK_SEG_LIMIT = 30
(config/settings.py); the limits are kept as parameters. -/
def chunk_segments (char_limit seg_limit : Nat) (segments : List Segment) :
    List (List Segment) :=
  chunkLoop char_limit seg_limit segments [] 0

/-- The greedy-maximality relation between two consecutive chunks: the second
chunk starts with a segment that could not have been added to the first
without breaking a bound (this is exactly the flush condition of the loop). -/
def adjOk (char_limit seg_limit : Nat) (c c' : List Segment) : Prop :=
  ∃ h t, c' = h :: t ∧
    (char_limit < estimate_total_chars c + h.src_text.length ∨ seg_limit ≤ c.length)

/-- A well-formed chunk: non-empty, within the segment-count bound, and
within the character bound unless it is a single segment whose text alone
exceeds the character limit. -/
def ChunkOk (char_limit seg_limit : Nat) (ch : List Segment) : Prop :=
  ch ≠ [] ∧ ch.length ≤ seg_limit ∧
    (estimate_total_chars ch ≤ char_limit ∨ ∃ s, ch = [s] ∧ char_limit < s.src_text.length)

end SegmentChunker

/- ------------------------------------------------------------------
   Translation quality validation, src/pipeline/utils/translation_validator.py.
   Only the critical check (empty / whitespace-only translation, lines 36-39)
   influences the verdict `is_valid = critical_errors < len(originals) * 0.1`
   (line 76); the warning branches only append to the warnings list, which
   is dropped here because it does not affect the returned Bool.
   ------------------------------------------------------------------ -/

namespace TranslationValidator

/-- The exact character set CPython's `str.strip()` removes (and
`str.isspace()` accepts): U+0009-U+000D (tab, LF, VT, FF, CR),
U+001C-U+001F (FS, GS, RS, US), U+0020 (space), U+0085 (NEL),
U+00A0 (NBSP), U+1680 (Ogham space mark), U+2000-U+200A (typographic
spaces), U+2028 (line separator), U+2029 (paragraph separator),
U+202F (narrow NBSP), U+205F (medium mathematical space) and
U+3000 (ideographic full-width space). -/
def pyIsSpace (c : Char) : Bool :=
  (0x09 ≤ c.toNat && c.toNat ≤ 0x0D) || (0x1C ≤ c.toNat && c.toNat ≤ 0x1F) ||
  c.toNat = 0x20 || c.toNat = 0x85 || c.toNat = 0xA0 || c.toNat = 0x1680 ||
  (0x2000 ≤ c.toNat && c.toNat ≤ 0x200A) || c.toNat = 0x2028 || c.toNat = 0x2029 ||
  c.toNat = 0x202F || c.toNat = 0x205F || c.toNat = 0x3000

/-- `not trans or not trans.strip()`: the translation is empty or consists of
Python-whitespace characters only (an empty string satisfies `all`
vacuously, matching the falsiness of `''`). -/
def isBlank (s : String) : Bool := s.data.all pyIsSpace

/-- Number of items of `zip(originals, translations)` counted as critical. -/
def criticalCount (originals translations : List String) : Nat :=
  ((originals.zip translations).map Prod.snd).countP isBlank

/-- The verdict `critical_errors < len(originals) * 0.1` (see the header
comment for the exact float-to-integer justification). -/
def validate (originals translations : List String) : Bool :=
  10 * criticalCount originals translations < originals.length

end TranslationValidator

/-- In `GroqClient.translate` (src/pipeline/utils/groq_client.py, lines
100-111) a parsed response with `is_valid = False` raises `GroqAPIError`,
i.e. the translation attempt for the chunk fails. -/
def GroqClient.attemptFailsValidation (originals translations : List String) : Bool :=
  !(TranslationValidator.validate originals translations)

/- ------------------------------------------------------------------
   Translation phase, src/pipeline/phases/trans_groq.py.
   The outcome of `groq.translate` for the chunk at index i (success with a
   list of translations, or GroqAPIError after the client exhausted its own
   retries) is an oracle parameter `o : Nat → ChunkOutcome`.
   ------------------------------------------------------------------ -/

namespace TranslationPhase

inductive ChunkOutcome where
  | ok (translations : List String)
  | fail
  deriving DecidableEq

def ChunkOutcome.isFail : ChunkOutcome → Bool
  | .ok _ => false
  | .fail => true

/-- `for seg, translation in zip(chunk, translations): ...` (lines 87-90):
each paired segment gets the translation, provider "groq" and status
"completed"; like Python `zip`, unpaired trailing segments are untouched. -/
def applyTranslations : List Segment → List String → List Segment
  | [], _ => []
  | ss, [] => ss
  | s :: ss, t :: ts =>
    { s with tgt_text := some t, translation_provider := some "groq",
             translation_status := "completed" } :: applyTranslations ss ts

/-- The failure marking of lines 98-102: status "failed", retries + 1,
`tgt_text` falls back to `src_text`. -/
def markFailed (chunk : List Segment) : List Segment :=
  chunk.map (fun s =>
    { s with translation_status := "failed",
             translation_retries := s.translation_retries + 1,
             tgt_text := some s.src_text })

/-- Count of failing chunk indices in the index window `[a, a + n)`. -/
def failCnt (o : Nat → ChunkOutcome) : Nat → Nat → Nat
  | _, 0 => 0
  | a, n + 1 => (if (o a).isFail then 1 else 0) + failCnt o (a + 1) n

structure TransLoopOut where
  aborted : Bool
  chunks : List (List Segment)
  failed : Nat
  requests : Nat

/-- The chunk loop of `TranslationPhase.execute` (lines 64-109): `i` is the
0-based chunk index, `f` the `failed_chunks` counter so far.  On failure the
chunk is marked, the counter incremented, and
`if failed_chunks / total_chunks > 0.5` (embedded as `2 * (f+1) > total`)
raises `PhaseError`, which aborts the loop leaving the remaining chunks
untouched.  `requests` counts the `groq.translate` calls issued. -/
def transLoop (o : Nat → ChunkOutcome) (total : Nat) :
    List (List Segment) → Nat → Nat → TransLoopOut
  | [], _, f => ⟨false, [], f, 0⟩
  | c :: rest, i, f =>
    match o i with
    | .ok ts =>
      let r := transLoop o total rest (i + 1) f
      ⟨r.aborted, applyTranslations c ts :: r.chunks, r.failed, r.requests + 1⟩
    | .fail =>
      if 2 * (f + 1) > total then
        ⟨true, markFailed c :: rest, f + 1, 1⟩
      else
        let r := transLoop o total rest (i + 1) (f + 1)
        ⟨r.aborted, markFailed c :: r.chunks, r.failed, r.requests + 1⟩

/-- Reinsert the processed translatable segments into the full segment list:
the Python code mutates the shared dict objects in place, so the k-th element
of the filtered list and the k-th unflagged element of `segments` are the
same object; this function reproduces that aliasing functionally. -/
def mergeBack : List Segment → List Segment → List Segment
  | [], _ => []
  | s :: rest, upd =>
    if s.suspected_hallucination then s :: mergeBack rest upd
    else
      match upd with
      | u :: us => u :: mergeBack rest us
      | [] => s :: mergeBack rest []

structure ExecOut where
  success : Bool
  segs : List Segment
  requests : Nat

/-- The chunks actually sent to translation (lines 35-53): the flagged
segments are filtered out before chunking. -/
def translationChunks (char_limit seg_limit : Nat) (segments : List Segment) :
    List (List Segment) :=
  SegmentChunker.chunk_segments char_limit seg_limit
    (segments.filter (fun s => !s.suspected_hallucination))

/-- `TranslationPhase.execute` (lines 27-136): filter out segments flagged
`suspected_hallucination` (lines 35-38); if nothing remains, return success
with the segments unchanged (lines 40-46); otherwise chunk and run the loop.
When the loop raised `PhaseError` the phase execution fails (`success =
false`); `segs` is the in-memory segment list at that point (on failure it
is never persisted, because `run` only merges metadata on success). -/
def executeModel (char_limit seg_limit : Nat) (segments : List Segment)
    (o : Nat → ChunkOutcome) : ExecOut :=
  let translatable := segments.filter (fun s => !s.suspected_hallucination)
  if translatable = [] then
    ⟨true, segments, 0⟩
  else
    let chunks := SegmentChunker.chunk_segments char_limit seg_limit translatable
    let r := transLoop o chunks.length chunks 0 0
    ⟨!r.aborted, mergeBack segments r.chunks.flatten, r.requests⟩

end TranslationPhase

/- ------------------------------------------------------------------
   PIN managers.  The repository contains two implementations of
   `PINManager.verify_pin`:
   - src/app/services/pin_manager.py (Redis-backed; spec §9 declares this
     keyed-store version authoritative).  Redis expiry deletes the key, so
     an expired entry is an absent entry: the state is `Option RedisPinEntry`.
   - src/app/services/notification.py (in-process dict with an explicit
     `expires` timestamp), modelled separately below.
   ------------------------------------------------------------------ -/

structure RedisPinEntry where
  pin : String
  attempts : Nat
  deriving DecidableEq

namespace RedisPINManager

def notFoundMsg : String := "PINが見つかりません（有効期限切れの可能性があります）"

def lockedMsg : String := "試行回数上限に達しました"

def mismatchMsg (remaining : Nat) : String :=
  "PINコードが正しくありません（残り" ++ toString remaining ++ "回）"

/-- `PINManager.verify_pin` of src/app/services/pin_manager.py (lines 46-74):
absent key → not found; `attempts >= 5` → locked; otherwise `HINCRBY attempts 1`
then compare; on match `HSET attempts 0` and succeed, on mismatch report
`5 - (attempts + 1)` remaining tries.  Returns (new stored state, ok, message). -/
def verify_pin (entry : Option RedisPinEntry) (pin : String) :
    Option RedisPinEntry × Bool × String :=
  match entry with
  | none => (none, false, notFoundMsg)
  | some e =>
    if 5 ≤ e.attempts then (some e, false, lockedMsg)
    else if e.pin = pin then (some { e with attempts := 0 }, true, "")
    else (some { e with attempts := e.attempts + 1 }, false, mismatchMsg (5 - (e.attempts + 1)))

end RedisPINManager

structure MemPinEntry where
  pin : String
  expires : Int
  attempts : Nat
  deriving DecidableEq

namespace NotificationPINManager

/-- `PINManager.verify_pin` of src/app/services/notification.py (lines 34-60):
unknown job → not found; `utcnow() > expires` → expired message;
`attempts >= 5` → locked; otherwise `attempts += 1` and compare — note that on
a match the incremented counter is NOT reset.  `now` stands for
`datetime.utcnow()`. -/
def verify_pin (entry : Option MemPinEntry) (now : Int) (pin : String) :
    Option MemPinEntry × Bool × String :=
  match entry with
  | none => (none, false, "PINが見つかりません（メールを再確認してください）")
  | some e =>
    if e.expires < now then (some e, false, "PINコードの有効期限が切れています")
    else if 5 ≤ e.attempts then
      (some e, false, "試行回数上限に達しました（メールを再送信してください）")
    else
      let e' := { e with attempts := e.attempts + 1 }
      if e'.pin = pin then (some e', true, "")
      else (some e', false,
        "PINコードが正しくありません（残り" ++ toString (5 - e'.attempts) ++ "回）")

end NotificationPINManager

/- ------------------------------------------------------------------
   Delivery gate, src/app/api/download.py `download_job` (lines 21-88).
   I/O facts are parameters: `jobExists` = `job_path.exists()`,
   `(pinOk, pinErr)` = result of `PINManager.verify_pin`, `now` =
   `datetime.utcnow()` and `expires_at` as a parsed timestamp,
   `outputDirExists` = `output_dir.exists()`.
   ------------------------------------------------------------------ -/

/-- The closed ordered set of phase identifiers (class PhaseID). -/
inductive PhaseID where
  | pre_0_download
  | pre_1_normalize
  | pre_2_separate
  | pre_3_whisperx
  | pre_3_5_vad
  | pre_4_ref_audio
  | pre_5_hallucination
  | translation
  | tts
  | post_1_timeline
  | post_2_mix
  | post_3_finalize
  | post_4_manifest
  deriving DecidableEq

structure PhaseDependency where
  required_files : List String
  required_job_fields : List String
  required_env_vars : List String
  estimated_duration_min : ℚ

/-- The `PHASE_DEPENDENCIES` dict (lines 36-86 plus the TRANSLATION and TTS
entries appended at lines 131-145).  The four post phases have no entry in
the dict, hence `none`; `get_dependency` raises `KeyError` for them. -/
def PHASE_DEPENDENCIES : PhaseID → Option PhaseDependency
  | .pre_0_download => some ⟨[], ["source.url"], [], 5⟩
  | .pre_1_normalize => some ⟨["original.wav"], ["media.duration_sec"], [], 10⟩
  | .pre_2_separate => some ⟨["normalized.wav"], ["media.duration_sec"], [], 60⟩
  | .pre_3_whisperx => some ⟨["pre_voice.wav"], ["languages.src_lang"], ["HF_TOKEN"], 120⟩
  | .pre_3_5_vad => some ⟨["pre_voice.wav"], ["segments"], [], 15⟩
  | .pre_4_ref_audio => some ⟨["pre_voice.wav"], ["segments", "speakers"], [], 5⟩
  | .pre_5_hallucination => some ⟨[], ["segments", "languages.src_lang"], [], 2⟩
  | .translation =>
    some ⟨[], ["segments", "languages.src_lang", "languages.tgt_lang"], ["GROQ_API_KEY"], 20⟩
  | .tts =>
    some ⟨["pre_voice.wav"], ["segments", "speakers", "languages.tgt_lang"], ["HF_TOKEN"], 180⟩
  | .post_1_timeline => none
  | .post_2_mix => none
  | .post_3_finalize => none
  | .post_4_manifest => none

/-- A JSON value, for the job record read by the dotted-field check. -/
inductive JValue where
  | str (s : String)
  | num (n : Int)
  | bool (b : Bool)
  | null
  | arr (items : List JValue)
  | obj (fields : List (String × JValue))

/-- Dictionary access with an `isinstance(current, dict)` guard. -/
def JValue.getKey : JValue → String → Option JValue
  | .obj kvs, k => kvs.lookup k
  | _, _ => none

def hasPathKeys : JValue → List String → Bool
  | _, [] => true
  | j, k :: rest =>
    match j.getKey k with
    | some v => hasPathKeys v rest
    | none => false

/-- The field walk of lines 114-121: split the dotted path and require each
key to be present in a dict at each level (only existence is checked, a null
value passes). -/
def hasFieldPath (job : JValue) (fieldPath : String) : Bool :=
  hasPathKeys job (splitDotStr fieldPath)

def fileMissingMsg (f : String) : String :=
  "必須ファイル " ++ squote ++ f ++ squote ++
    " が見つかりません（前のPhaseが失敗している可能性があります）"

def fieldMissingMsg (p : String) : String :=
  "job.jsonに必須フィールド " ++ squote ++ p ++ squote ++ " がありません"

def envMissingMsg (v : String) : String :=
  "環境変数 " ++ squote ++ v ++ squote ++ " が設定されていません（.envファイルを確認してください）"

/-- The three check loops of `validate_phase_preconditions` (lines 107-128)
given the phase's dependency record: first missing required file, then first
missing dotted job field, then first unset (or empty, `not os.getenv(...)`)
environment variable; `files` lists the names existing under `temp/{job_id}/`
and `env` the environment keys set to a non-empty value. -/
def validateWithDep (dep : PhaseDependency) (job : JValue) (files env : List String) :
    Bool × Option String :=
  match dep.required_files.find? (fun f => !files.contains f) with
  | some f => (false, some (fileMissingMsg f))
  | none =>
    match dep.required_job_fields.find? (fun p => !hasFieldPath job p) with
    | some p => (false, some (fieldMissingMsg p))
    | none =>
      match dep.required_env_vars.find? (fun v => !env.contains v) with
      | some v => (false, some (envMissingMsg v))
      | none => (true, none)

/-- `validate_phase_preconditions(phase_id, job_id, job, temp_dir)`:
`get_dependency` raises `KeyError` when the dict has no entry for the id
(the four post phases), modelled as `Except.error`. -/
def validate_phase_preconditions (phase_id : PhaseID) (job : JValue)
    (files env : List String) : Except String (Bool × Option String) :=
  match PHASE_DEPENDENCIES phase_id with
  | none => .error "KeyError"
  | some dep => .ok (validateWithDep dep job files env)

/- ------------------------------------------------------------------
   Phase runner, src/pipeline/base_phase.py `BasePhase.run` (lines 63-140).
   `exec a` is the outcome of the a-th `self.execute()` call (0-based, like
   the Python loop variable `attempt`); `translate` is
   `ErrorTranslator.translate` of src/pipeline/utils/error_translator.py,
   taken as a parameter (its pattern table maps a technical message to a
   user-visible phrase and does not interact with the retry logic);
   `base` is `settings.PHASE_RETRY_DELAY_SEC` (default 5.0) as a rational.
   ------------------------------------------------------------------ -/

namespace BasePhase

inductive ExecOutcome where
  | ok
  | err (msg : String)

/-- The observable outcome of `run`: the returned `PhaseResult`'s success
flag and error fields, how many times `execute()` was invoked, and the exact
sequence of `time.sleep` durations between attempts. -/
structure RunOutcome where
  success : Bool
  error : Option String
  user_friendly_error : Option String
  executeCalls : Nat
  sleeps : List ℚ
  deriving DecidableEq

/-- The retry loop (lines 92-140): `remaining` attempts are left and the next
one has index `attempt`.  On success the loop returns immediately; on failure
with further attempts left (`attempt < max_retries - 1`) it sleeps
`base * 2 ^ attempt` and retries; when all attempts are exhausted it returns
a failure carrying the last technical error and its translation. -/
def retryGo (exec : Nat → ExecOutcome) (translate : String → String) (base : ℚ) :
    Nat → Nat → Option String → RunOutcome
  | 0, _, lastErr =>
    let tech := lastErr.getD "None"
    ⟨false, some tech, some (translate tech), 0, []⟩
  | r + 1, attempt, _ =>
    match exec attempt with
    | .ok => ⟨true, none, none, 1, []⟩
    | .err e =>
      if r = 0 then ⟨false, some e, some (translate e), 1, []⟩
      else
        let rest := retryGo exec translate base r (attempt + 1) (some e)
        { rest with executeCalls := rest.executeCalls + 1,
                    sleeps := base * 2 ^ attempt :: rest.sleeps }

/-- `BasePhase.run`: load the job, validate the preconditions (a failure is
returned as a `PhaseResult` whose error and user_friendly_error are both the
validation message, with `execute()` never called), then run the retry loop.
The `KeyError` of an unregistered phase id propagates. -/
def run (phase_id : PhaseID) (job : JValue) (files env : List String)
    (exec : Nat → ExecOutcome) (translate : String → String)
    (max_retries : Nat) (base : ℚ) : Except String RunOutcome :=
  match validate_phase_preconditions phase_id job files env with
  | .error e => .error e
  | .ok (false, msg) => .ok ⟨false, msg, msg, 0, []⟩
  | .ok (true, _) => .ok (retryGo exec translate base max_retries 0 none)

end BasePhase

/- ------------------------------------------------------------------
   Job submission, src/app/api/jobs.py, and the language-pair utility,
   src/app/utils/validation.py.
   ------------------------------------------------------------------ -/

/-- The keys of `settings.SUPPORTED_LANGUAGES` (config/settings.py). -/
def SUPPORTED_LANGUAGES : List String :=
  ["ja", "zh", "en", "de", "fr", "it", "es", "pt", "ru", "ko"]

namespace JobSubmission

/-- The `validate_language` pydantic validator (jobs.py lines 29-35):
accepts iff the code is a key of SUPPORTED_LANGUAGES. -/
def validate_language (v : String) : Bool := SUPPORTED_LANGUAGES.contains v

/-- The `validate_youtube_url` pydantic validator (jobs.py lines 37-48): the
three patterns are literal once unescaped, so `re.search` is a substring
test. -/
def validate_youtube_url (url : String) : Bool :=
  strHas "youtube.com/watch?v=".data url.data ||
  strHas "youtu.be/".data url.data ||
  strHas "youtube.com/embed/".data url.data

/-- A submission body passes the pydantic model `JobSubmission` iff both
language codes are supported and the URL matches a pattern.  There is no
validator comparing `src_lang` with `tgt_lang`. -/
def valid (url src_lang tgt_lang : String) : Bool :=
  validate_language src_lang && validate_language tgt_lang && validate_youtube_url url

end JobSubmission

/-- First position of `[?&]v=` and the text after it, for the pattern
`[?&]v=([^&]+)` of `extract_youtube_video_id`. -/
def findVParam : List Char → Option (List Char)
  | [] => none
  | c :: rest =>
    if (c = '?' || c = '&') && "v=".data.isPrefixOf rest then some (rest.drop 2)
    else findVParam rest

/-- Text after the first occurrence of a literal marker. -/
def findAfter (marker : List Char) : List Char → Option (List Char)
  | [] => none
  | c :: rest =>
    if marker.isPrefixOf (c :: rest) then some ((c :: rest).drop marker.length)
    else findAfter marker rest

/-- A non-empty capture group `([^X]+)`: take characters up to the first stop
character and require at least one. -/
def captureUntil (stops : List Char) (rest : List Char) : Option (List Char) :=
  let cap := rest.takeWhile (fun c => !stops.contains c)
  if cap = [] then none else some cap

/-- `extract_youtube_video_id` (jobs.py lines 177-188): try
`[?&]v=([^&]+)`, then `youtu\.be/([^?]+)`, then `embed/([^?]+)`. -/
def extract_youtube_video_id (url : String) : Option String :=
  match (findVParam url.data).bind (captureUntil ['&']) with
  | some cap => some ⟨cap⟩
  | none =>
    match (findAfter "youtu.be/".data url.data).bind (captureUntil ['?']) with
    | some cap => some ⟨cap⟩
    | none =>
      match (findAfter "embed/".data url.data).bind (captureUntil ['?']) with
      | some cap => some ⟨cap⟩
      | none => none

inductive SubmitResult where
  /-- The pydantic model rejected the body before the handler ran. -/
  | validationError
  /-- `HTTPException(400, ...)` from the handler. -/
  | badRequest (detail : String)
  /-- A fresh job record was written to the Job Store and enqueued. -/
  | created (video_id : String)
  deriving DecidableEq

/-- `create_job` (jobs.py lines 50-151) on a non-duplicate submission: an
invalid body never reaches the handler; otherwise the video id is extracted
(400 if that fails) and a new job record with the submitted `src_lang` and
`tgt_lang` is created and enqueued.  No step compares the two languages. -/
def create_job (url src_lang tgt_lang : String) : SubmitResult :=
  if !(JobSubmission.valid url src_lang tgt_lang) then .validationError
  else
    match extract_youtube_video_id url with
    | none => .badRequest "YouTube動画IDの抽出に失敗しました"
    | some vid => .created vid

/-- `validate_language_pair` (src/app/utils/validation.py lines 38-55).
This utility rejects `src_lang == tgt_lang`, but no caller in the repository
invokes it. -/
def validate_language_pair (src_lang tgt_lang : String) : Bool × Option String :=
  if !(SUPPORTED_LANGUAGES.contains src_lang) then
    (false, some ("元言語 " ++ squote ++ src_lang ++ squote ++ " は対応していません"))
  else if !(SUPPORTED_LANGUAGES.contains tgt_lang) then
    (false, some ("翻訳先言語 " ++ squote ++ tgt_lang ++ squote ++ " は対応していません"))
  else if src_lang = tgt_lang then
    (false, some "元言語と翻訳先言語は異なる必要があります")
  else (true, none)

/- ==================================================================
   Theorems.
   ================================================================== -/

/-- C2 counterexample: the in-memory `PINManager.verify_pin` of
src/app/services/notification.py (one of the two cited implementations)
does NOT reset the attempt counter on a successful match: a fresh entry
(attempts = 0) verified with the correct PIN succeeds but leaves the stored
counter at 1, not 0. -/
theorem notification_pin_no_reset_on_success :
    (NotificationPINManager.verify_pin (some ⟨"123456", 100, 0⟩) 0 "123456").2.1 = true
    ∧ (NotificationPINManager.verify_pin (some ⟨"123456", 100, 0⟩) 0 "123456").1 =
        some ⟨"123456", 100, 1⟩
    ∧ (⟨"123456", 100, 1⟩ : MemPinEntry).attempts ≠ 0 := by
  decide

/-- C2 (amended to the keyed-store PIN manager of
src/app/services/pin_manager.py, which spec §9 declares authoritative; a
Redis-expired entry is an absent entry): absent entry → not-found; stored
attempts ≥ 5 → locked; otherwise the counter is incremented and the
candidate compared — on a match the counter is reset to zero and
verification succeeds, on a mismatch it fails reporting the remaining
attempts. -/
theorem redis_pin_verify_spec (entry : Option RedisPinEntry) (pin : String) :
    (entry = none →
      RedisPINManager.verify_pin entry pin = (none, false, RedisPINManager.notFoundMsg))
    ∧ (∀ e, entry = some e → 5 ≤ e.attempts →
        RedisPINManager.verify_pin entry pin = (some e, false, RedisPINManager.lockedMsg))
    ∧ (∀ e, entry = some e → e.attempts < 5 → e.pin = pin →
        RedisPINManager.verify_pin entry pin = (some { e with attempts := 0 }, true, ""))
    ∧ (∀ e, entry = some e → e.attempts < 5 → e.pin ≠ pin →
        RedisPINManager.verify_pin entry pin =
          (some { e with attempts := e.attempts + 1 }, false,
            RedisPINManager.mismatchMsg (5 - (e.attempts + 1)))) := by
  refine ⟨?_, ?_, ?_, ?_⟩
  · intro h
    subst h
    rfl
  · intro e h h5
    subst h
    simp [RedisPINManager.verify_pin, h5]
  · intro e h h5 hmatch
    subst h
    have h5' : ¬ (5 ≤ e.attempts) := by omega
    simp [RedisPINManager.verify_pin, h5', hmatch]
  · intro e h h5 hmatch
    subst h
    have h5' : ¬ (5 ≤ e.attempts) := by omega
    simp [RedisPINManager.verify_pin, h5', hmatch]

theorem redis_pin_verify_witness :
    RedisPINManager.verify_pin (some ⟨"111111", 2⟩) "111111" =
      (some ⟨"111111", 0⟩, true, "") := by
  have h := (redis_pin_verify_spec (some ⟨"111111", 2⟩) "111111").2.2.1
    ⟨"111111", 2⟩ rfl (by decide) rfl
  exact h

/-- C7 (code-bug evidence): a submission whose source and target language
are both "ja" with a well-formed YouTube URL passes every validator of the
submission endpoint and a job record is created, although the (never-called)
utility `validate_language_pair` rejects the same pair — the spec's
`src_lang ≠ tgt_lang` rule is not enforced on the submission path. -/
theorem same_language_submission_accepted :
    create_job "https://youtu.be/dQw4w9WgXcQ" "ja" "ja" =
      SubmitResult.created "dQw4w9WgXcQ"
    ∧ validate_language_pair "ja" "ja" =
        (false, some "元言語と翻訳先言語は異なる必要があります") := by
  constructor
  · decide
  · decide

/-- C8: the translation quality validator counts an item as critical exactly
when its translation is empty or consists only of characters `str.strip()`
removes (Python's whitespace set, U+3000 and NBSP included); the batch
passes iff the critical count is below 10% of the total
(`critical < len * 0.1` embedded as `10 * critical < len`); and a chunk
whose validation reports critical failures on more than 10% of items makes
`GroqClient.translate` raise, i.e. the translation attempt fails. -/
theorem translation_validator_spec (originals translations : List String) :
    (TranslationValidator.validate originals translations = true ↔
      10 * TranslationValidator.criticalCount originals translations < originals.length)
    ∧ (∀ t, TranslationValidator.isBlank t = true ↔
        (t = "" ∨ ∀ c ∈ t.data, TranslationValidator.pyIsSpace c = true))
    ∧ (originals.length < 10 * TranslationValidator.criticalCount originals translations →
        GroqClient.attemptFailsValidation originals translations = true) := by
  refine ⟨?_, ?_, ?_⟩
  · simp [TranslationValidator.validate]
  · intro t
    rw [TranslationValidator.isBlank, List.all_eq_true]
    constructor
    · intro h
      exact Or.inr h
    · intro h
      rcases h with h | h
      · subst h
        decide
      · exact h
  · intro h
    have : TranslationValidator.validate originals translations = false := by
      simp [TranslationValidator.validate]
      omega
    simp [GroqClient.attemptFailsValidation, this]

theorem translation_validator_witness :
    GroqClient.attemptFailsValidation ["a", "b", "c"]
      ["", " ", (Char.ofNat 0x3000).toString] = true :=
  (translation_validator_spec ["a", "b", "c"]
    ["", " ", (Char.ofNat 0x3000).toString]).2.2 (by decide)

/-- `find?` returns the unique element satisfying the predicate. -/
theorem find?_eq_some_of_unique {α : Type} (p : α → Bool) (a : α) :
    ∀ l : List α, a ∈ l → p a = true → (∀ b ∈ l, p b = true → b = a) →
    l.find? p = some a := by
  intro l
  induction l with
  | nil =>
    intro h
    simp at h
  | cons x xs ih =>
    intro hmem hpa huniq
    by_cases hx : p x = true
    · have hxa : x = a := huniq x (by simp) hx
      subst hxa
      exact List.find?_cons_of_pos _ hx
    · rw [List.find?_cons_of_neg _ hx]
      have hxa : x ≠ a := fun h => hx (h ▸ hpa)
      have hmem' : a ∈ xs := by
        rcases List.mem_cons.mp hmem with h | h
        · exact absurd h.symm hxa
        · exact h
      exact ih hmem' hpa (fun b hb => huniq b (List.mem_cons_of_mem _ hb))

/-- C3: for every phase identifier of the registry and every job record,
omitting any single declared dependency — a required scratch file, a
required dotted job-record field, or a required environment key, the other
declared dependencies being satisfied — makes the runner return a
precondition-failure result whose message names the missing prerequisite,
with `execute()` never invoked (`executeCalls = 0`).  The quantification is
over the dependencies the registry declares (`PHASE_DEPENDENCIES`); the four
post phases declare none. -/
theorem phase_precondition_fastfail (phase_id : PhaseID) (dep : PhaseDependency)
    (job : JValue) (files env : List String)
    (exec : Nat → BasePhase.ExecOutcome) (translate : String → String)
    (max_retries : Nat) (base : ℚ)
    (hdep : PHASE_DEPENDENCIES phase_id = some dep) :
    (∀ f, f ∈ dep.required_files → files.contains f = false →
      (∀ g ∈ dep.required_files, g ≠ f → files.contains g = true) →
      BasePhase.run phase_id job files env exec translate max_retries base =
        .ok ⟨false, some (fileMissingMsg f), some (fileMissingMsg f), 0, []⟩)
    ∧ (∀ p, (∀ g ∈ dep.required_files, files.contains g = true) →
        p ∈ dep.required_job_fields → hasFieldPath job p = false →
        (∀ q ∈ dep.required_job_fields, q ≠ p → hasFieldPath job q = true) →
        BasePhase.run phase_id job files env exec translate max_retries base =
          .ok ⟨false, some (fieldMissingMsg p), some (fieldMissingMsg p), 0, []⟩)
    ∧ (∀ v, (∀ g ∈ dep.required_files, files.contains g = true) →
        (∀ q ∈ dep.required_job_fields, hasFieldPath job q = true) →
        v ∈ dep.required_env_vars → env.contains v = false →
        (∀ w ∈ dep.required_env_vars, w ≠ v → env.contains w = true) →
        BasePhase.run phase_id job files env exec translate max_retries base =
          .ok ⟨false, some (envMissingMsg v), some (envMissingMsg v), 0, []⟩) := by
  refine ⟨?_, ?_, ?_⟩
  · intro f hf hmiss huniq
    have hfind : dep.required_files.find? (fun x => !files.contains x) = some f := by
      refine find?_eq_some_of_unique _ f _ hf (by simp only [Bool.not_eq_true']; exact hmiss) ?_
      intro b hb hpb
      simp only [Bool.not_eq_true'] at hpb
      by_contra hne
      rw [huniq b hb hne] at hpb
      exact Bool.noConfusion hpb
    have hval : validate_phase_preconditions phase_id job files env =
        .ok (false, some (fileMissingMsg f)) := by
      simp only [validate_phase_preconditions, hdep]
      simp only [validateWithDep, hfind]
    simp only [BasePhase.run, hval]
  · intro p hall hp hmiss huniq
    have hfiles : dep.required_files.find? (fun x => !files.contains x) = none := by
      refine List.find?_eq_none.mpr ?_
      intro g hg
      simp only [Bool.not_eq_true', hall g hg]
      decide
    have hfind : dep.required_job_fields.find? (fun x => !hasFieldPath job x) = some p := by
      refine find?_eq_some_of_unique _ p _ hp (by simp only [Bool.not_eq_true']; exact hmiss) ?_
      intro b hb hpb
      simp only [Bool.not_eq_true'] at hpb
      by_contra hne
      rw [huniq b hb hne] at hpb
      exact Bool.noConfusion hpb
    have hval : validate_phase_preconditions phase_id job files env =
        .ok (false, some (fieldMissingMsg p)) := by
      simp only [validate_phase_preconditions, hdep]
      simp only [validateWithDep, hfiles, hfind]
    simp only [BasePhase.run, hval]
  · intro v hfall hqall hv hmiss huniq
    have hfiles : dep.required_files.find? (fun x => !files.contains x) = none := by
      refine List.find?_eq_none.mpr ?_
      intro g hg
      simp only [Bool.not_eq_true', hfall g hg]
      decide
    have hfields : dep.required_job_fields.find? (fun x => !hasFieldPath job x) = none := by
      refine List.find?_eq_none.mpr ?_
      intro q hq
      simp only [Bool.not_eq_true', hqall q hq]
      decide
    have hfind : dep.required_env_vars.find? (fun x => !env.contains x) = some v := by
      refine find?_eq_some_of_unique _ v _ hv (by simp only [Bool.not_eq_true']; exact hmiss) ?_
      intro b hb hpb
      simp only [Bool.not_eq_true'] at hpb
      by_contra hne
      rw [huniq b hb hne] at hpb
      exact Bool.noConfusion hpb
    have hval : validate_phase_preconditions phase_id job files env =
        .ok (false, some (envMissingMsg v)) := by
      simp only [validate_phase_preconditions, hdep]
      simp only [validateWithDep, hfiles, hfields, hfind]
    simp only [BasePhase.run, hval]

theorem phase_precondition_fastfail_witness :
    BasePhase.run .pre_3_whisperx
      (JValue.obj [("languages", JValue.obj [("src_lang", JValue.str "ja")])])
      [] ["HF_TOKEN"] (fun _ => .ok) (fun s => s) 3 5 =
      .ok ⟨false, some (fileMissingMsg "pre_voice.wav"),
        some (fileMissingMsg "pre_voice.wav"), 0, []⟩ := by
  have h := (phase_precondition_fastfail .pre_3_whisperx
    ⟨["pre_voice.wav"], ["languages.src_lang"], ["HF_TOKEN"], 120⟩
    (JValue.obj [("languages", JValue.obj [("src_lang", JValue.str "ja")])])
    [] ["HF_TOKEN"] (fun _ => .ok) (fun s => s) 3 5 rfl).1
    "pre_voice.wav" (by simp) rfl (by simp)
  exact h

/-- In the retry loop, failing `k` times and succeeding on the attempt with
0-based index `k` (while attempts remain) returns success after exactly
`k + 1` calls, with a sleep of `base * 2 ^ attempt` after each failed
attempt. -/
theorem retryGo_succeeds (exec : Nat → BasePhase.ExecOutcome)
    (translate : String → String) (base : ℚ) :
    ∀ (k r a : Nat) (last : Option String), k < r →
      (∀ j, j < k → ∃ e, exec (a + j) = .err e) → exec (a + k) = .ok →
      BasePhase.retryGo exec translate base r a last =
        { success := true, error := none, user_friendly_error := none,
          executeCalls := k + 1,
          sleeps := (List.range k).map (fun j => base * 2 ^ (a + j)) } := by
  intro k
  induction k with
  | zero =>
    intro r a last hr hf hok
    obtain ⟨r', rfl⟩ : ∃ r', r = r' + 1 := ⟨r - 1, by omega⟩
    simp only [Nat.add_zero] at hok
    rw [BasePhase.retryGo]
    simp [hok]
  | succ k ih =>
    intro r a last hr hf hok
    obtain ⟨r', rfl⟩ : ∃ r', r = r' + 1 := ⟨r - 1, by omega⟩
    obtain ⟨e, he⟩ := hf 0 (by omega)
    simp only [Nat.add_zero] at he
    have hr0 : ¬ (r' = 0) := by omega
    rw [BasePhase.retryGo]
    simp only [he, if_neg hr0]
    rw [ih r' (a + 1) (some e) (by omega)
      (fun j hj => by
        obtain ⟨e', he'⟩ := hf (j + 1) (by omega)
        exact ⟨e', by rw [show a + 1 + j = a + (j + 1) by omega]; exact he'⟩)
      (by rw [show a + 1 + k = a + (k + 1) by omega]; exact hok)]
    have hsl : (List.range (k + 1)).map (fun j => base * 2 ^ (a + j)) =
        base * 2 ^ a :: (List.range k).map (fun j => base * 2 ^ (a + 1 + j)) := by
      rw [List.range_succ_eq_map]
      simp only [List.map_cons, List.map_map, Nat.add_zero]
      congr 1
      refine List.map_congr_left ?_
      intro j hj
      simp only [Function.comp_apply]
      congr 1
      congr 1
      omega
    rw [hsl]

/-- In the retry loop, failing on every one of the remaining attempts
returns a failure carrying the last technical error and its translation,
after sleeping `base * 2 ^ attempt` between consecutive attempts. -/
theorem retryGo_exhausts (exec : Nat → BasePhase.ExecOutcome)
    (translate : String → String) (base : ℚ) (err : Nat → String) :
    ∀ (r a : Nat) (last : Option String), 1 ≤ r →
      (∀ j, j < r → exec (a + j) = .err (err (a + j))) →
      BasePhase.retryGo exec translate base r a last =
        { success := false, error := some (err (a + (r - 1))),
          user_friendly_error := some (translate (err (a + (r - 1)))),
          executeCalls := r,
          sleeps := (List.range (r - 1)).map (fun j => base * 2 ^ (a + j)) } := by
  intro r
  induction r with
  | zero =>
    intro a last h1
    exact absurd h1 (by omega)
  | succ r' ih =>
    intro a last h1 hf
    have h0 := hf 0 (by omega)
    simp only [Nat.add_zero] at h0
    rw [BasePhase.retryGo]
    simp only [h0]
    by_cases hr : r' = 0
    · subst hr
      rw [if_pos rfl]
      simp
    · rw [if_neg hr]
      rw [ih (a + 1) (some (err a)) (by omega)
        (fun j hj => by
          have h := hf (j + 1) (by omega)
          rwa [show a + (j + 1) = a + 1 + j by omega] at h)]
      obtain ⟨r'', rfl⟩ : ∃ r'', r' = r'' + 1 := ⟨r' - 1, by omega⟩
      have hix : a + 1 + (r'' + 1 - 1) = a + (r'' + 1 + 1 - 1) := by omega
      have hsl : (List.range (r'' + 1 + 1 - 1)).map (fun j => base * 2 ^ (a + j)) =
          base * 2 ^ a :: (List.range (r'' + 1 - 1)).map (fun j => base * 2 ^ (a + 1 + j)) := by
        rw [show r'' + 1 + 1 - 1 = r'' + 1 by omega, show r'' + 1 - 1 = r'' by omega]
        rw [List.range_succ_eq_map]
        simp only [List.map_cons, List.map_map, Nat.add_zero]
        congr 1
        refine List.map_congr_left ?_
        intro j hj
        simp only [Function.comp_apply]
        congr 1
        congr 1
        omega
      rw [hix, hsl]

/-- C6: with the preconditions satisfied, a phase whose `execute()` fails
`k` times and succeeds on attempt `k + 1` (1-based, `k + 1 ≤ max_retries`)
makes the runner return success; one that fails all `max_retries` attempts
makes it return failure carrying the last technical error and its
user-visible translation; and the sleep between the attempt with 0-based
index `attempt` and the next is exactly `base * 2 ^ attempt`. -/
theorem base_phase_retry_discipline (phase_id : PhaseID) (job : JValue)
    (files env : List String) (exec : Nat → BasePhase.ExecOutcome)
    (translate : String → String) (max_retries : Nat) (base : ℚ)
    (hval : validate_phase_preconditions phase_id job files env = .ok (true, none)) :
    (∀ k, k + 1 ≤ max_retries →
      (∀ a, a < k → ∃ e, exec a = .err e) → exec k = .ok →
      BasePhase.run phase_id job files env exec translate max_retries base =
        .ok { success := true, error := none, user_friendly_error := none,
              executeCalls := k + 1,
              sleeps := (List.range k).map (fun a => base * 2 ^ a) })
    ∧ (∀ err : Nat → String, 1 ≤ max_retries →
        (∀ a, a < max_retries → exec a = .err (err a)) →
        BasePhase.run phase_id job files env exec translate max_retries base =
          .ok { success := false, error := some (err (max_retries - 1)),
                user_friendly_error := some (translate (err (max_retries - 1))),
                executeCalls := max_retries,
                sleeps := (List.range (max_retries - 1)).map (fun a => base * 2 ^ a) }) := by
  have hrun : BasePhase.run phase_id job files env exec translate max_retries base =
      .ok (BasePhase.retryGo exec translate base max_retries 0 none) := by
    simp [BasePhase.run, hval]
  constructor
  · intro k hk hfail hok
    rw [hrun]
    rw [retryGo_succeeds exec translate base k max_retries 0 none (by omega)
      (fun j hj => by
        obtain ⟨e, he⟩ := hfail j hj
        exact ⟨e, by rwa [Nat.zero_add]⟩)
      (by rwa [Nat.zero_add])]
    have hs : (List.range k).map (fun j => base * 2 ^ (0 + j)) =
        (List.range k).map (fun a => base * 2 ^ a) := by
      refine List.map_congr_left ?_
      intro j hj
      rw [Nat.zero_add]
    rw [hs]
  · intro err h1 hfail
    rw [hrun]
    rw [retryGo_exhausts exec translate base err max_retries 0 none h1
      (fun j hj => by rw [Nat.zero_add]; exact hfail j hj)]
    have hs : (List.range (max_retries - 1)).map (fun j => base * 2 ^ (0 + j)) =
        (List.range (max_retries - 1)).map (fun a => base * 2 ^ a) := by
      refine List.map_congr_left ?_
      intro j hj
      rw [Nat.zero_add]
    rw [hs, Nat.zero_add]

theorem base_phase_retry_witness :
    BasePhase.run .pre_0_download
      (JValue.obj [("source", JValue.obj [("url", JValue.str "https://youtu.be/x")])])
      [] [] (fun a => if a = 0 then .err "Timeout" else .ok) (fun s => s) 3 5 =
      .ok { success := true, error := none, user_friendly_error := none,
            executeCalls := 2, sleeps := [5] } := by
  have h := (base_phase_retry_discipline .pre_0_download
    (JValue.obj [("source", JValue.obj [("url", JValue.str "https://youtu.be/x")])])
    [] [] (fun a => if a = 0 then .err "Timeout" else .ok) (fun s => s) 3 5 rfl).1
    1 (by omega)
    (fun a ha => ⟨"Timeout", by
      have : a = 0 := by omega
      subst this
      rfl⟩)
    rfl
  simpa [List.range_succ] using h

/-- The concatenation of the chunks is the input prefixed by the chunk under
construction. -/
theorem chunkLoop_flatten (cl sl : Nat) :
    ∀ (segs cur : List Segment) (c : Nat),
      (SegmentChunker.chunkLoop cl sl segs cur c).flatten = cur ++ segs := by
  intro segs
  induction segs with
  | nil =>
    intro cur c
    rw [SegmentChunker.chunkLoop]
    split_ifs with h
    · simp [h]
    · simp
  | cons s rest ih =>
    intro cur c
    rw [SegmentChunker.chunkLoop]
    split_ifs with h
    · simp [ih]
    · rw [ih]
      simp

/-- Every chunk the loop emits is well-formed, provided the chunk under
construction is empty or well-formed and the running character count is
accurate. -/
theorem chunkLoop_bounds (cl sl : Nat) (hsl : 1 ≤ sl) :
    ∀ (segs cur : List Segment) (c : Nat), c = SegmentChunker.estimate_total_chars cur →
      (cur = [] ∨ SegmentChunker.ChunkOk cl sl cur) →
      ∀ ch ∈ SegmentChunker.chunkLoop cl sl segs cur c,
        SegmentChunker.ChunkOk cl sl ch := by
  intro segs
  induction segs with
  | nil =>
    intro cur c hc hcur ch hch
    rw [SegmentChunker.chunkLoop] at hch
    split_ifs at hch with h
    · simp at hch
    · simp at hch
      subst hch
      rcases hcur with h' | h'
      · exact absurd h' h
      · exact h'
  | cons s rest ih =>
    intro cur c hc hcur ch hch
    rw [SegmentChunker.chunkLoop] at hch
    split_ifs at hch with h
    · rcases List.mem_cons.mp hch with h' | h'
      · subst h'
        rcases hcur with h'' | h''
        · exact absurd h'' h.1
        · exact h''
      · refine ih [s] s.src_text.length (by simp [SegmentChunker.estimate_total_chars]) ?_ ch h'
        right
        refine ⟨by simp, by simpa using hsl, ?_⟩
        by_cases hlen : s.src_text.length ≤ cl
        · left
          simpa [SegmentChunker.estimate_total_chars] using hlen
        · right
          exact ⟨s, rfl, by omega⟩
    · refine ih (cur ++ [s]) (c + s.src_text.length)
        (by simp [hc, SegmentChunker.estimate_total_chars]) ?_ ch hch
      right
      push_neg at h
      rcases eq_or_ne cur [] with hc0 | hc0
      · subst hc0
        refine ⟨by simp, by simpa using hsl, ?_⟩
        by_cases hlen : s.src_text.length ≤ cl
        · left
          simpa [SegmentChunker.estimate_total_chars] using hlen
        · right
          exact ⟨s, rfl, by omega⟩
      · have h2 := h hc0
        rcases hcur with h3 | h3
        · exact absurd h3 hc0
        · refine ⟨by simp, ?_, ?_⟩
          · simp only [List.length_append, List.length_cons, List.length_nil]
            omega
          · left
            have hsum : SegmentChunker.estimate_total_chars (cur ++ [s]) =
                c + s.src_text.length := by
              simp [hc, SegmentChunker.estimate_total_chars]
            rw [hsum]
            omega

/-- The first chunk the loop emits extends the chunk under construction. -/
theorem chunkLoop_head (cl sl : Nat) :
    ∀ (segs cur : List Segment) (c : Nat), cur ≠ [] →
      ∃ ext, (SegmentChunker.chunkLoop cl sl segs cur c).head? = some (cur ++ ext) := by
  intro segs
  induction segs with
  | nil =>
    intro cur c h
    rw [SegmentChunker.chunkLoop]
    rw [if_neg h]
    exact ⟨[], by simp⟩
  | cons s rest ih =>
    intro cur c h
    rw [SegmentChunker.chunkLoop]
    split_ifs with hcond
    · exact ⟨[], by simp⟩
    · obtain ⟨ext, hext⟩ := ih (cur ++ [s]) (c + s.src_text.length) (by simp)
      exact ⟨s :: ext, by rw [hext]; simp⟩

/-- Consecutive emitted chunks satisfy the greedy-maximality relation. -/
theorem chunkLoop_chain (cl sl : Nat) :
    ∀ (segs cur : List Segment) (c : Nat), c = SegmentChunker.estimate_total_chars cur →
      List.Chain' (SegmentChunker.adjOk cl sl) (SegmentChunker.chunkLoop cl sl segs cur c) := by
  intro segs
  induction segs with
  | nil =>
    intro cur c hc
    rw [SegmentChunker.chunkLoop]
    split_ifs
    · exact List.chain'_nil
    · exact List.chain'_singleton _
  | cons s rest ih =>
    intro cur c hc
    rw [SegmentChunker.chunkLoop]
    split_ifs with hcond
    · refine List.chain'_cons'.mpr
        ⟨?_, ih [s] s.src_text.length (by simp [SegmentChunker.estimate_total_chars])⟩
      intro y hy
      obtain ⟨ext, hext⟩ :=
        chunkLoop_head cl sl rest [s] s.src_text.length (by simp)
      rw [hext] at hy
      simp at hy
      subst hy
      refine ⟨s, ext, rfl, ?_⟩
      rw [← hc]
      exact hcond.2
    · exact ih (cur ++ [s]) (c + s.src_text.length)
        (by simp [hc, SegmentChunker.estimate_total_chars])

/-- C5: the chunker reproduces the input exactly (concatenation of the chunks
is the input list, order preserved, nothing dropped or duplicated); every
chunk is non-empty, within the segment-count bound, and within the character
bound unless it is a single segment whose text alone exceeds the character
limit; and the chunks are greedy-maximal: each chunk cannot absorb the first
segment of the next without breaking a bound. -/
theorem chunker_spec (char_limit seg_limit : Nat) (hsl : 1 ≤ seg_limit)
    (segments : List Segment) :
    (SegmentChunker.chunk_segments char_limit seg_limit segments).flatten = segments
    ∧ (∀ ch ∈ SegmentChunker.chunk_segments char_limit seg_limit segments,
        SegmentChunker.ChunkOk char_limit seg_limit ch)
    ∧ List.Chain' (SegmentChunker.adjOk char_limit seg_limit)
        (SegmentChunker.chunk_segments char_limit seg_limit segments) := by
  refine ⟨?_, ?_, ?_⟩
  · simpa using chunkLoop_flatten char_limit seg_limit segments [] 0
  · exact chunkLoop_bounds char_limit seg_limit hsl segments [] 0
      (by simp [SegmentChunker.estimate_total_chars]) (Or.inl rfl)
  · exact chunkLoop_chain char_limit seg_limit segments [] 0
      (by simp [SegmentChunker.estimate_total_chars])

theorem chunker_spec_witness :
    (SegmentChunker.chunk_segments 5 2
        [⟨"aaa", none, false, "pending", none, 0⟩,
         ⟨"bbbb", none, false, "pending", none, 0⟩]).flatten =
      [⟨"aaa", none, false, "pending", none, 0⟩,
       ⟨"bbbb", none, false, "pending", none, 0⟩]
    ∧ (∀ ch ∈ SegmentChunker.chunk_segments 5 2
        [⟨"aaa", none, false, "pending", none, 0⟩,
         ⟨"bbbb", none, false, "pending", none, 0⟩],
        SegmentChunker.ChunkOk 5 2 ch)
    ∧ List.Chain' (SegmentChunker.adjOk 5 2)
        (SegmentChunker.chunk_segments 5 2
          [⟨"aaa", none, false, "pending", none, 0⟩,
           ⟨"bbbb", none, false, "pending", none, 0⟩]) :=
  chunker_spec 5 2 (by omega)
    [⟨"aaa", none, false, "pending", none, 0⟩,
     ⟨"bbbb", none, false, "pending", none, 0⟩]

/-- The chunk loop aborts iff the full hypothetical failure count pushes the
ratio past one half (the running check fires at the first crossing). -/
theorem transLoop_abort_iff (o : Nat → TranslationPhase.ChunkOutcome) (total : Nat) :
    ∀ (cs : List (List Segment)) (i f : Nat), 2 * f ≤ total →
      ((TranslationPhase.transLoop o total cs i f).aborted = true ↔
        total < 2 * (f + TranslationPhase.failCnt o i cs.length)) := by
  intro cs
  induction cs with
  | nil =>
    intro i f hf
    rw [TranslationPhase.transLoop]
    simp only [List.length_nil, TranslationPhase.failCnt]
    constructor
    · intro h
      exact absurd h (by simp)
    · intro h
      omega
  | cons c rest ih =>
    intro i f hf
    rw [TranslationPhase.transLoop]
    cases ho : o i with
    | ok ts =>
      have hcnt : TranslationPhase.failCnt o i (rest.length + 1) =
          TranslationPhase.failCnt o (i + 1) rest.length := by
        rw [TranslationPhase.failCnt]
        simp [ho, TranslationPhase.ChunkOutcome.isFail]
      simp only [ho, List.length_cons, hcnt]
      exact ih (i + 1) f hf
    | fail =>
      have hcnt : TranslationPhase.failCnt o i (rest.length + 1) =
          1 + TranslationPhase.failCnt o (i + 1) rest.length := by
        rw [TranslationPhase.failCnt]
        simp [ho, TranslationPhase.ChunkOutcome.isFail]
      simp only [ho, List.length_cons, hcnt]
      by_cases habort : 2 * (f + 1) > total
      · rw [if_pos habort]
        simp only [true_iff]
        omega
      · rw [if_neg habort]
        have hiff := ih (i + 1) (f + 1) (by omega)
        constructor
        · intro h
          have := hiff.mp h
          omega
        · intro h
          exact hiff.mpr (by omega)

/-- When the loop does not abort, the chunk at a failing index is exactly the
mark-failed image of the input chunk at that index. -/
theorem transLoop_marked (o : Nat → TranslationPhase.ChunkOutcome) (total : Nat) :
    ∀ (cs : List (List Segment)) (i f : Nat),
      (TranslationPhase.transLoop o total cs i f).aborted = false →
      ∀ k, k < cs.length → (o (i + k)).isFail = true →
        (TranslationPhase.transLoop o total cs i f).chunks.getD k [] =
          TranslationPhase.markFailed (cs.getD k []) := by
  intro cs
  induction cs with
  | nil =>
    intro i f hab k hk
    simp at hk
  | cons c rest ih =>
    intro i f hab k hk hfail
    rw [TranslationPhase.transLoop] at hab ⊢
    cases ho : o i with
    | ok ts =>
      simp only [ho] at hab ⊢
      cases k with
      | zero =>
        rw [Nat.add_zero, ho] at hfail
        exact absurd hfail (by simp [TranslationPhase.ChunkOutcome.isFail])
      | succ k' =>
        simp only [List.getD_cons_succ]
        refine ih (i + 1) f hab k' (by simpa using hk) ?_
        rwa [show i + 1 + k' = i + (k' + 1) by omega]
    | fail =>
      simp only [ho] at hab ⊢
      by_cases habort : 2 * (f + 1) > total
      · rw [if_pos habort] at hab
        simp at hab
      · rw [if_neg habort] at hab ⊢
        cases k with
        | zero => simp
        | succ k' =>
          simp only [List.getD_cons_succ]
          refine ih (i + 1) (f + 1) hab k' (by simpa using hk) ?_
          rwa [show i + 1 + k' = i + (k' + 1) by omega]

/-- Every segment of a mark-failed chunk carries the failure marking. -/
theorem markFailed_mem (ch : List Segment) :
    ∀ s ∈ TranslationPhase.markFailed ch,
      s.translation_status = "failed" ∧ s.tgt_text = some s.src_text := by
  intro s hs
  obtain ⟨a, _, rfl⟩ := List.mem_map.mp hs
  exact ⟨rfl, rfl⟩

/-- C4: when the translation phase execution succeeds, every chunk that
failed all its retries has each of its segments marked
`translation.status = failed` with `tgt_text` set to its `src_text`; and the
phase execution fails exactly when the ratio of failed chunks to total
chunks exceeds 0.5 (`failed / total > 0.5` embedded as `2 * failed > total`),
so with 3 chunks of which exactly 1 fails it succeeds. -/
theorem translation_failure_policy (char_limit seg_limit : Nat)
    (segments : List Segment) (o : Nat → TranslationPhase.ChunkOutcome) :
    ((TranslationPhase.executeModel char_limit seg_limit segments o).success = true ↔
      2 * TranslationPhase.failCnt o 0
          (TranslationPhase.translationChunks char_limit seg_limit segments).length ≤
        (TranslationPhase.translationChunks char_limit seg_limit segments).length)
    ∧ ((TranslationPhase.executeModel char_limit seg_limit segments o).success = true →
        ∀ k, k < (TranslationPhase.translationChunks char_limit seg_limit segments).length →
          (o k).isFail = true →
          ∀ s ∈ (TranslationPhase.transLoop o
              (TranslationPhase.translationChunks char_limit seg_limit segments).length
              (TranslationPhase.translationChunks char_limit seg_limit segments)
              0 0).chunks.getD k [],
            s.translation_status = "failed" ∧ s.tgt_text = some s.src_text) := by
  by_cases hempty : segments.filter (fun s => !s.suspected_hallucination) = []
  · have hchunks : TranslationPhase.translationChunks char_limit seg_limit segments = [] := by
      rw [TranslationPhase.translationChunks, hempty]
      rfl
    constructor
    · have hexec : (TranslationPhase.executeModel char_limit seg_limit segments o).success =
          true := by
        simp [TranslationPhase.executeModel, hempty]
      rw [hexec, hchunks]
      simp [TranslationPhase.failCnt]
    · intro _ k hk
      rw [hchunks] at hk
      simp at hk
  · have hsucc : (TranslationPhase.executeModel char_limit seg_limit segments o).success =
        !(TranslationPhase.transLoop o
          (TranslationPhase.translationChunks char_limit seg_limit segments).length
          (TranslationPhase.translationChunks char_limit seg_limit segments) 0 0).aborted := by
      simp [TranslationPhase.executeModel, hempty, TranslationPhase.translationChunks]
    have key := transLoop_abort_iff o
      (TranslationPhase.translationChunks char_limit seg_limit segments).length
      (TranslationPhase.translationChunks char_limit seg_limit segments) 0 0 (by omega)
    simp only [Nat.zero_add] at key
    constructor
    · rw [hsucc]
      cases hA : (TranslationPhase.transLoop o
          (TranslationPhase.translationChunks char_limit seg_limit segments).length
          (TranslationPhase.translationChunks char_limit seg_limit segments) 0 0).aborted
      · simp only [Bool.not_false, true_iff]
        have hno : ¬ ((TranslationPhase.translationChunks char_limit seg_limit segments).length <
            2 * TranslationPhase.failCnt o 0
              (TranslationPhase.translationChunks char_limit seg_limit segments).length) := by
          intro hc
          have := key.mpr hc
          rw [hA] at this
          exact Bool.noConfusion this
        omega
      · simp only [Bool.not_true, Bool.false_eq_true, false_iff]
        have := key.mp hA
        omega
    · intro hs k hk hfail s hsmem
      have hab : (TranslationPhase.transLoop o
          (TranslationPhase.translationChunks char_limit seg_limit segments).length
          (TranslationPhase.translationChunks char_limit seg_limit segments) 0 0).aborted =
          false := by
        rw [hsucc] at hs
        simpa using hs
      have hmk := transLoop_marked o
        (TranslationPhase.translationChunks char_limit seg_limit segments).length
        (TranslationPhase.translationChunks char_limit seg_limit segments) 0 0 hab k hk
        (by rwa [Nat.zero_add])
      rw [hmk] at hsmem
      exact markFailed_mem _ s hsmem

theorem translation_failure_policy_witness :
    (TranslationPhase.executeModel 3 1
      [⟨"aaa", none, false, "pending", none, 0⟩,
       ⟨"bbb", none, false, "pending", none, 0⟩,
       ⟨"ccc", none, false, "pending", none, 0⟩]
      (fun i => if i = 1 then .fail else .ok ["x"])).success = true
    ∧ ((⟨"bbb", some "bbb", false, "failed", none, 1⟩ : Segment).translation_status = "failed"
       ∧ (⟨"bbb", some "bbb", false, "failed", none, 1⟩ : Segment).tgt_text =
          some (⟨"bbb", some "bbb", false, "failed", none, 1⟩ : Segment).src_text) := by
  have h1 := (translation_failure_policy 3 1
    [⟨"aaa", none, false, "pending", none, 0⟩,
     ⟨"bbb", none, false, "pending", none, 0⟩,
     ⟨"ccc", none, false, "pending", none, 0⟩]
    (fun i => if i = 1 then .fail else .ok ["x"])).1.mpr (by decide)
  refine ⟨h1, ?_⟩
  exact (translation_failure_policy 3 1
    [⟨"aaa", none, false, "pending", none, 0⟩,
     ⟨"bbb", none, false, "pending", none, 0⟩,
     ⟨"ccc", none, false, "pending", none, 0⟩]
    (fun i => if i = 1 then .fail else .ok ["x"])).2 h1 1 (by decide) (by decide)
    ⟨"bbb", some "bbb", false, "failed", none, 1⟩ (by decide)

/-- The merged-back segment list keeps flagged segments untouched at their
positions. -/
theorem mergeBack_flagged :
    ∀ (segs upd : List Segment) (k : Nat), k < segs.length →
      (segs.getD k default).suspected_hallucination = true →
      (TranslationPhase.mergeBack segs upd).getD k default = segs.getD k default := by
  intro segs
  induction segs with
  | nil =>
    intro upd k hk
    simp at hk
  | cons s rest ih =>
    intro upd k hk hflag
    by_cases hs : s.suspected_hallucination
    · have hunf : TranslationPhase.mergeBack (s :: rest) upd =
          s :: TranslationPhase.mergeBack rest upd := by
        rw [TranslationPhase.mergeBack.eq_def]
        simp [hs]
      rw [hunf]
      cases k with
      | zero => simp
      | succ k' =>
        simp only [List.getD_cons_succ] at hflag ⊢
        exact ih upd k' (by simpa using hk) hflag
    · cases upd with
      | nil =>
        have hunf : TranslationPhase.mergeBack (s :: rest) [] =
            s :: TranslationPhase.mergeBack rest [] := by
          rw [TranslationPhase.mergeBack.eq_def]
          simp [hs]
        rw [hunf]
        cases k with
        | zero =>
          simp only [List.getD_cons_zero] at hflag
          exact absurd hflag hs
        | succ k' =>
          simp only [List.getD_cons_succ] at hflag ⊢
          exact ih [] k' (by simpa using hk) hflag
      | cons u us =>
        have hunf : TranslationPhase.mergeBack (s :: rest) (u :: us) =
            u :: TranslationPhase.mergeBack rest us := by
          rw [TranslationPhase.mergeBack.eq_def]
          simp [hs]
        rw [hunf]
        cases k with
        | zero =>
          simp only [List.getD_cons_zero] at hflag
          exact absurd hflag hs
        | succ k' =>
          simp only [List.getD_cons_succ] at hflag ⊢
          exact ih us k' (by simpa using hk) hflag

/-- C9: segments flagged `suspected_hallucination` are excluded from
translation: if all segments are flagged, the phase succeeds immediately
with the segments unchanged and issues no translation request; a flagged
segment is returned untouched at its position (its `tgt_text` — null before
the phase — and its `translation.status` are unchanged); and the phase
outcome is identical to running it on the unflagged segments only, so
flagged segments never count toward translation failures. -/
theorem translation_hallucination_skip (char_limit seg_limit : Nat)
    (segments : List Segment) (o : Nat → TranslationPhase.ChunkOutcome) :
    ((∀ s ∈ segments, s.suspected_hallucination = true) →
      TranslationPhase.executeModel char_limit seg_limit segments o =
        ⟨true, segments, 0⟩)
    ∧ (∀ k, k < segments.length →
        (segments.getD k default).suspected_hallucination = true →
        (TranslationPhase.executeModel char_limit seg_limit segments o).segs.getD k default =
          segments.getD k default)
    ∧ ((TranslationPhase.executeModel char_limit seg_limit segments o).success =
        (TranslationPhase.executeModel char_limit seg_limit
          (segments.filter (fun s => !s.suspected_hallucination)) o).success) := by
  refine ⟨?_, ?_, ?_⟩
  · intro hall
    have hempty : segments.filter (fun s => !s.suspected_hallucination) = [] := by
      refine List.filter_eq_nil_iff.mpr ?_
      intro a ha
      simp [hall a ha]
    simp [TranslationPhase.executeModel, hempty]
  · intro k hk hflag
    by_cases hempty : segments.filter (fun s => !s.suspected_hallucination) = []
    · simp [TranslationPhase.executeModel, hempty]
    · have hsegs : (TranslationPhase.executeModel char_limit seg_limit segments o).segs =
          TranslationPhase.mergeBack segments
            (TranslationPhase.transLoop o
              (SegmentChunker.chunk_segments char_limit seg_limit
                (segments.filter (fun s => !s.suspected_hallucination))).length
              (SegmentChunker.chunk_segments char_limit seg_limit
                (segments.filter (fun s => !s.suspected_hallucination)))
              0 0).chunks.flatten := by
        simp [TranslationPhase.executeModel, hempty]
      rw [hsegs]
      exact mergeBack_flagged segments _ k hk hflag
  · by_cases hempty : segments.filter (fun s => !s.suspected_hallucination) = []
    · simp [TranslationPhase.executeModel, hempty]
    · have hfilter : (segments.filter (fun s => !s.suspected_hallucination)).filter
          (fun s => !s.suspected_hallucination) =
          segments.filter (fun s => !s.suspected_hallucination) :=
        List.filter_eq_self.mpr (fun a ha => (List.mem_filter.mp ha).2)
      simp [TranslationPhase.executeModel, hempty, hfilter]

theorem translation_hallucination_skip_witness :
    TranslationPhase.executeModel 2000 30
      [⟨"x", none, true, "pending", none, 0⟩] (fun _ => .fail) =
      ⟨true, [⟨"x", none, true, "pending", none, 0⟩], 0⟩ :=
  (translation_hallucination_skip 2000 30
    [⟨"x", none, true, "pending", none, 0⟩] (fun _ => .fail)).1 (by decide)

end Talkdub
